import Mathlib

/-!
Verification development for the `ssh-unari` repository: a terminal dashboard,
served over SSH, that browses Unicafe cafeteria menus per campus and date.

The session core is embedded shallowly from `src/main.go` (package `main`) and
`src/pkg/fetch.go` (package `fetch`):

* Go strings are Lean `String`s; the handful of `strings` stdlib calls used by
  the program (`ToLower`, `TrimSpace`, `Trim`, `Split`, `Join`, `<`) are
  re-implemented structurally over `List Char` so that every definition
  reduces in the kernel.  Go compares strings bytewise on UTF-8, which
  coincides with codepoint order, i.e. with `Char` order.  `Char.toLower`
  lowers only ASCII letters; the category labels the program matches
  ("Lounas", "Vegaanilounas", "Lisäke", "Jälkiruoka") contain no uppercase
  non-ASCII letters, so this agrees with Go's `strings.ToLower` on all inputs
  the program distinguishes.
* Go `int` is `Int`.
* `time.Time` values are modelled as an `Int` calendar-day index: the program
  only ever adds/subtracts whole days (`AddDate(0, 0, ±1)`) and formats the
  value.  The two `Format` calls ("Monday 02.01.2006" and "02.01.") are
  external library behaviour and are passed in as opaque `Int → String`
  parameters of the renderer.
* The lipgloss styling collaborator (colors, bold, borders, centering,
  width/height budgets) is modelled as the identity on text content, per the
  spec's description of styling as "styled text of the same semantic content".
  The bubblezone registry is likewise modelled as identity marking; a mouse
  event carries its own hit-test predicate (`inBounds i` stands for
  `zone.Get(LOCATIONS[i]).InBounds(msg)`).
* `tea.Cmd` values (`tea.Quit`, the initial fetch command) are side channels;
  `Update` returns only the next model, as the commands never alter the model.
-/

namespace Unari

/-! ## Go string primitives, embedded structurally -/

/-- Go `unicode.IsSpace` on the Latin-1 range (the whitespace the program can
meet in practice): space, tab, newline, vertical tab, form feed, carriage
return, NEL and NBSP. -/
def goIsSpace (c : Char) : Bool :=
  c = ' ' || c = '\t' || c = '\n' || c = '\x0b' || c = '\x0c' || c = '\r' ||
    c = '\u0085' || c = ' '

/-- Go `strings.ToLower` (ASCII range; see the header note). -/
def goToLower (s : String) : String :=
  ⟨s.data.map Char.toLower⟩

/-- Go `strings.TrimSpace`: drop leading and trailing whitespace. -/
def goTrimSpace (s : String) : String :=
  ⟨((s.data.dropWhile goIsSpace).reverse.dropWhile goIsSpace).reverse⟩

/-- Go `strings.Trim(s, cutset)` for a single-character cutset. -/
def goTrimChar (s : String) (c : Char) : String :=
  ⟨((s.data.dropWhile (· = c)).reverse.dropWhile (· = c)).reverse⟩

/-- Lexicographic strict order on character lists: Go's `<` on strings
(bytewise on UTF-8, which agrees with codepoint order). -/
def charListLt : List Char → List Char → Bool
  | _, [] => false
  | [], _ :: _ => true
  | a :: as, b :: bs =>
    if a < b then true else if b < a then false else charListLt as bs

/-- Go `<` on strings. -/
def goStringLt (a b : String) : Bool :=
  charListLt a.data b.data

/-- Go `strings.Split(s, sep)` for a single-character separator: splits at
every occurrence, keeping empty fields, and always returns at least one
field. -/
def splitOnChar (sep : Char) : List Char → List (List Char)
  | [] => [[]]
  | c :: cs =>
    match splitOnChar sep cs with
    | [] => [[]]
    | h :: t => if c = sep then [] :: h :: t else (c :: h) :: t

/-- Go `strings.Split` wrapped for `String`. -/
def goSplit (s : String) (sep : Char) : List String :=
  (splitOnChar sep s.data).map (fun l => ⟨l⟩)

/-- Go `strings.Join(elems, sep)`. -/
def joinWith (sep : String) : List String → String
  | [] => ""
  | [s] => s
  | s :: rest => s ++ sep ++ joinWith sep rest

/-! ## Stable sorting

`sort.SliceStable(slice, less)` is a stable sort by the comparator `less`.
Any two stable sorts with the same comparator produce the same output, so it
is embedded as the classic stable insertion sort: elements are taken from the
input left to right, and each is inserted into the sorted prefix just before
the first element strictly greater than it — hence after every element it
ties with, preserving input order among ties. -/

/-- Insert `a` into `l` before the first element `b` with `lt a b`. -/
def insertStable {α : Type} (lt : α → α → Bool) (a : α) : List α → List α
  | [] => [a]
  | b :: bs => if lt a b then a :: b :: bs else b :: insertStable lt a bs

/-- Stable sort by the strict comparator `lt`. -/
def stableSort {α : Type} (lt : α → α → Bool) (l : List α) : List α :=
  l.foldl (fun acc a => insertStable lt a acc) []

/-! ## Data model (`src/pkg/fetch.go`)

Fields the session core never reads (ids, slugs, addresses, visiting hours,
price values, …) are omitted as opaque payload. -/

/-- `fetch.Price`: the `Name` field carries the category label. -/
structure Price where
  name : String
deriving DecidableEq, Repr

/-- `fetch.Data`: one menu item. -/
structure Data where
  name : String
  ingredients : String
  nutrition : String
  price : Price
deriving DecidableEq, Repr

/-- `fetch.Menu`: one day's menu of a restaurant. -/
structure Menu where
  date : String
  message : String
  data : List Data
deriving DecidableEq, Repr

/-- `fetch.MenuData` (only the `Menus` field is read by the core). -/
structure MenuData where
  menus : List Menu
deriving DecidableEq, Repr

/-- `fetch.Unicafe`: one restaurant of the fetched dataset. -/
structure Unicafe where
  title : String
  menu : MenuData
deriving DecidableEq, Repr

/-! ## Static tables and view indices (`src/main.go`) -/

/-- The `LOCATIONS` array. -/
def LOCATIONS : List String :=
  ["Keskusta", "Kumpula", "Meilahti", "Töölö", "Viikki"]

/-- The `LOCATION_RESTAURANTS` map, as a lookup function (absent keys map to
the empty list, matching Go's zero value for a missing map entry). -/
def LOCATION_RESTAURANTS (campus : String) : List String :=
  if campus = "Keskusta" then
    ["Myöhä Café & Bar", "Kaivopiha", "Kaisa-talo", "Soc&Kom", "Rotunda",
      "Porthania Opettajien ravintola", "Porthania", "Topelias", "Olivia",
      "Metsätalo"]
  else if campus = "Kumpula" then
    ["Physicum", "Exactum", "Chemicum", "Chemicum Opettajien ravintola"]
  else if campus = "Meilahti" then ["Terkko", "Meilahti"]
  else if campus = "Töölö" then ["Serpens"]
  else if campus = "Viikki" then
    ["Tähkä", "Biokeskus 2", "Infokeskus alakerta", "Viikuna", "Infokeskus",
      "Biokeskus"]
  else []

/-- The `iota` view-index constants. -/
def keskustaView : Int := 0

/-- View index of Kumpula (the initial view). -/
def kumpulaView : Int := 1

/-- View index of Meilahti. -/
def meilahtiView : Int := 2

/-- View index of Töölö (named `töölöView` in the source; Lean identifiers
reject `ö`). -/
def tooloView : Int := 3

/-- View index of Viikki. -/
def viikkiView : Int := 4

/-- The `totalViews` constant: number of campus views. -/
def totalViews : Int := 5

/-! ## Menu item ordering (`renderRestaurant`, src/main.go lines 321-344) -/

/-- The `rank` closure: category label → sort rank. -/
def rank (name : String) : Nat :=
  let n := goToLower (goTrimSpace name)
  if n = "lounas" then 0
  else if n = "vegaanilounas" then 1
  else if n = "lisäke" then 2
  else if n = "jälkiruoka" then 3
  else 100

/-- The lowercased, whitespace-trimmed item name used as sort tie-break. -/
def lowerName (d : Data) : String :=
  goToLower (goTrimSpace d.name)

/-- The full sort key of an item: (category rank, normalized name). -/
def itemKey (d : Data) : Nat × String :=
  (rank d.price.name, lowerName d)

/-- The `less` closure passed to `sort.SliceStable`. -/
def menuLess (a b : Data) : Bool :=
  let ri := rank a.price.name
  let rj := rank b.price.name
  if ri ≠ rj then decide (ri < rj)
  else goStringLt (lowerName a) (lowerName b)

/-- The in-place `sort.SliceStable(menu.Data, less)` call, as a pure stable
sort. -/
def sortMenuData (l : List Data) : List Data :=
  stableSort menuLess l

/-- The `mealType` switch on `meal.Price.Name` (styling is identity on text;
the `Vegaanilounas` arm renders the literal "Veg "; the default arm leaves
`mealType` empty). -/
def mealTypeOf (priceName : String) : String :=
  if priceName = "Lounas" then "Lounas "
  else if priceName = "Lisäke" then "Lisäke "
  else if priceName = "Buffet" then "Buffet "
  else if priceName = "Vegaanilounas" then "Veg "
  else if priceName = "Jälkiruoka" then "Jälkiruoka "
  else ""

/-- One rendered menu-item line: `" • " + mealType + strings.Trim(meal.Name, " ")`. -/
def itemLine (meal : Data) : String :=
  " • " ++ mealTypeOf meal.price.name ++ goTrimChar meal.name ' '

/-- The rendered item lines of one matching menu, in sorted order. -/
def menuLines (menu : Menu) : List String :=
  (sortMenuData menu.data).map itemLine

/-! ## Session state and events (`model`, `Update`; src/main.go) -/

/-- The bubbletea `model` struct.  Style fields are omitted (styling is
modelled as identity); `selectedDate` is the calendar-day index described in
the header note. -/
structure Model where
  term : String
  profile : String
  width : Int
  height : Int
  bg : String
  currentView : Int
  data : List Unicafe
  selectedDate : Int
  loading : Bool
  scrollOffset : Int

/-- Mouse buttons distinguished by `Update` (`tea.MouseButton`). -/
inductive MouseButton where
  | wheelDown
  | wheelUp
  | left
  | other
deriving DecidableEq, Repr

/-- Mouse actions distinguished by `Update` (`tea.MouseAction`). -/
inductive MouseAction where
  | press
  | release
  | motion
deriving DecidableEq, Repr

/-- Key events distinguished by the `tea.KeyMsg` switch: `up`/`k`,
`down`/`j`, `right`/`l`, `left`/`h`, `t`/`T`, `q`/`ctrl+c`, and any other
key (which falls through the switch unchanged). -/
inductive Key where
  | up
  | down
  | left
  | right
  | today
  | quit
  | other
deriving DecidableEq, Repr

/-- The messages `Update` dispatches on.  A mouse message carries the
hit-test predicate of the bubblezone registry at the event's coordinates:
`inBounds i` stands for `zone.Get(LOCATIONS[i]).InBounds(msg)`. -/
inductive Msg where
  | windowSize (width height : Int)
  | unicafeData (d : List Unicafe)
  | mouse (button : MouseButton) (action : MouseAction) (inBounds : Nat → Bool)
  | key (k : Key)

/-- One iteration of the click-zone loop `for i, campus := range LOCATIONS`. -/
def zoneStep (inBounds : Nat → Bool) (m : Model) (i : Nat) : Model :=
  if m.currentView ≠ (i : Int) ∧ inBounds i then
    { m with currentView := (i : Int), scrollOffset := 0 }
  else m

/-- The whole click-zone loop over the campus indices. -/
def applyZones (inBounds : Nat → Bool) (idxs : List Nat) (m : Model) : Model :=
  idxs.foldl (zoneStep inBounds) m

/-- The `Update` method.  `now` is the value of `time.Now().In(finland)` read
by the `t`/`T` arm; the `tea.Cmd` component of the Go return value (always
`nil` or `tea.Quit`) never alters the model and is dropped. -/
def Update (m : Model) (msg : Msg) (now : Int) : Model :=
  match msg with
  | .windowSize w h => { m with height := h, width := w }
  | .unicafeData d => { m with loading := false, data := d }
  | .mouse button action inBounds =>
    let m1 := if button = .wheelDown then
        { m with scrollOffset := m.scrollOffset + 2 }
      else m
    let m2 := if button = .wheelUp then
        (if m1.scrollOffset ≥ 2 then
          { m1 with scrollOffset := m1.scrollOffset - 2 }
        else m1)
      else m1
    if action ≠ .release ∨ button ≠ .left then m2
    else applyZones inBounds (List.range 5) m2
  | .key k =>
    match k with
    | .quit => m
    | .up =>
      let v := m.currentView - 1
      let v := if v < 0 then totalViews - 1 else v
      { m with currentView := v, scrollOffset := 0 }
    | .down =>
      let v := m.currentView + 1
      let v := if v ≥ totalViews then 0 else v
      { m with currentView := v, scrollOffset := 0 }
    | .right => { m with selectedDate := m.selectedDate + 1, scrollOffset := 0 }
    | .left => { m with selectedDate := m.selectedDate - 1, scrollOffset := 0 }
    | .today => { m with selectedDate := now, scrollOffset := 0 }
    | .other => m

/-- The model built by `teaHandler` for a fresh connection: Kumpula view,
today's date, `loading = true`, zero scroll offset (Go zero value), and the
package-level `unicafeData` variable as initial data. -/
def initModel (term profile bg : String) (w h today : Int)
    (globalData : List Unicafe) : Model :=
  { term := term, profile := profile, width := w, height := h, bg := bg,
    currentView := kumpulaView, data := globalData, selectedDate := today,
    loading := true, scrollOffset := 0 }

/-- The session states reachable from a fresh connection by any sequence of
events. -/
inductive Reachable : Model → Prop where
  | init (term profile bg : String) (w h today : Int) (d : List Unicafe) :
      Reachable (initModel term profile bg w h today d)
  | step {m : Model} (msg : Msg) (now : Int) :
      Reachable m → Reachable (Update m msg now)

/-- The message produced by `Init`'s fetch command: on fetch error the core
receives an empty dataset instead of the fetched one. -/
def initMsg (fetchResult : Option (List Unicafe)) : Msg :=
  match fetchResult with
  | none => .unicafeData []
  | some d => .unicafeData d

/-- A canonical wheel-down mouse message, for iterating scroll-down events. -/
def wheelDownMsg : Msg :=
  .mouse .wheelDown .press (fun _ => false)

/-- The model after `n` consecutive wheel-down events. -/
def scrollDownN : Nat → Model → Model
  | 0, m => m
  | n + 1, m => Update (scrollDownN n m) wheelDownMsg 0

/-! ## Rendering (`View` and helpers; src/main.go) -/

/-- An inline lipgloss style application, modelled as identity on text. -/
def styleRender (text : String) : String := text

/-- A lipgloss style with a width/height budget, modelled as identity on
text. -/
def boxRender (w h : Int) (text : String) : String := text

/-- The content-pane style (`Width`, `Height`, `MaxHeight`), modelled as
identity on text. -/
def contentRender (w h mh : Int) (text : String) : String := text

/-- A `zone.Mark` tag, modelled as identity on text. -/
def zoneMark (id text : String) : String := text

/-- The final `zone.Scan` pass, modelled as identity on text. -/
def zoneScan (text : String) : String := text

/-- The `renderTermTooSmall` method. -/
def renderTermTooSmall (m : Model) : String :=
  boxRender m.width m.height "Terminal too small"

/-- The `renderLoading` method. -/
def renderLoading (m : Model) : String :=
  boxRender m.width m.height "Loading"

/-- The visible content height used by the scroll window:
`m.height - 3 - 2`. -/
def visibleHeightOf (height : Int) : Int :=
  height - 3 - 2

/-- The maximum scroll offset for a given line count and visible height:
`max(len(lines) - visibleHeight, 0)`. -/
def maxOffsetOf (totalLines vh : Int) : Int :=
  max (totalLines - vh) 0

/-- The scroll clamp of `renderRestaurant`: pull the offset down to
`maxOffset`, then up to `0`. -/
def clampOffset (off totalLines vh : Int) : Int :=
  let maxOffset := maxOffsetOf totalLines vh
  let o1 := if off > maxOffset then maxOffset else off
  if o1 < 0 then 0 else o1

/-- The date token compared against the formatted selected date:
`restaurantDate[len(restaurantDate)-1]` after splitting on spaces. -/
def lastToken (s : String) : String :=
  ⟨(splitOnChar ' ' s.data).getLastD []⟩

/-- The inner menu loop body: append one section per menu of `restaurant`
whose date matches, and record whether any matched. -/
def menuSection (restaurant : Unicafe) (currentDate : String)
    (acc : String × Bool) : String × Bool :=
  restaurant.menu.menus.foldl
    (fun acc menu =>
      if lastToken menu.date = currentDate then
        (acc.1 ++ "\n\n" ++ styleRender restaurant.title ++ "\n" ++
          joinWith "\n" (menuLines menu), true)
      else acc)
    acc

/-- The restaurant loop of `renderRestaurant`: the accumulated content string
paired with the `found` flag, starting from the date header line. -/
def restaurantBody (data : List Unicafe) (campusRestaurants : List String)
    (currentDate : String) (header : String) : String × Bool :=
  data.foldl
    (fun acc restaurant =>
      if campusRestaurants.contains restaurant.title then
        menuSection restaurant currentDate acc
      else acc)
    (header ++ "\n", false)

/-- The content string built by `renderRestaurant` before scrolling, paired
with the `found` flag.  `fmtFull` and `fmtShort` are the external
`time.Format` calls for "Monday 02.01.2006" and "02.01.". -/
def restaurantContentAndFound (fmtFull fmtShort : Int → String) (m : Model)
    (idx : Int) : String × Bool :=
  let campus := LOCATIONS.getD idx.toNat ""
  let campusRestaurants := LOCATION_RESTAURANTS campus
  let currentDate := fmtShort m.selectedDate
  let header := styleRender (fmtFull m.selectedDate)
  let result := restaurantBody m.data campusRestaurants currentDate header
  if result.2 then result else (result.1 ++ "\n\nNo data for this date.", false)

/-- The `strings.Split(content, "\n")` line split. -/
def contentLinesOf (content : String) : List String :=
  (splitOnChar '\n' content.data).map (fun l => ⟨l⟩)

/-- The `renderRestaurant` method. -/
def renderRestaurant (fmtFull fmtShort : Int → String) (m : Model)
    (idx : Int) : String :=
  let content := (restaurantContentAndFound fmtFull fmtShort m idx).1
  let lines := contentLinesOf content
  let so := clampOffset m.scrollOffset (lines.length : Int)
    (visibleHeightOf m.height)
  let lines := if 0 < so ∧ so < (lines.length : Int) then
      lines.drop so.toNat
    else lines
  contentRender (m.width - 26) (m.height - 3) (m.height - 1)
    (joinWith "\n" lines)

/-- The `renderSidebar` method (identity styling collapses the selected and
unselected item styles to the campus name). -/
def renderSidebar (m : Model) : String :=
  let campusList := LOCATIONS.map (fun campus => zoneMark campus (styleRender campus))
  boxRender 22 (m.height - 3) (joinWith "\n" campusList)

/-- The `renderFooter` method (identity styling; lipgloss joins modelled as
concatenation). -/
def renderFooter (m : Model) : String :=
  styleRender "q: quit" ++ styleRender "↑/↓: campus\tt: today\t←/→: date"

/-- The `View` method. -/
def View (fmtFull fmtShort : Int → String) (m : Model) : String :=
  if m.loading then renderLoading m
  else if m.width < 40 ∨ m.height < 10 then renderTermTooSmall m
  else
    let sidebar := renderSidebar m
    let restaurantView := renderRestaurant fmtFull fmtShort m m.currentView
    let footer := renderFooter m
    let mainView := sidebar ++ restaurantView
    zoneScan (mainView ++ "\n" ++ footer)

/-! ## Order facts about the Go string comparison -/

/-- A `String` is determined by its character list. -/
theorem stringDataEq {a b : String} (h : a.data = b.data) : a = b := by
  cases a; cases b; exact congrArg String.mk h

/-- No list is below the empty list. -/
theorem charListLt_nil_right (x : List Char) : charListLt x [] = false := by
  cases x <;> simp [charListLt]

/-- Unfolding of `charListLt` on two cons cells. -/
theorem charListLt_cons_iff (a b : Char) (as bs : List Char) :
    charListLt (a :: as) (b :: bs) = true ↔
      (a < b ∨ (a = b ∧ charListLt as bs = true)) := by
  simp only [charListLt]
  by_cases h1 : a < b
  · simp [h1]
  · by_cases h2 : b < a
    · have hne : a ≠ b := ne_of_gt h2
      simp [h1, h2, hne]
    · have hab : a = b := le_antisymm (not_lt.mp h2) (not_lt.mp h1)
      simp [h1, h2, hab]

/-- `charListLt` is asymmetric. -/
theorem charListLt_asymm :
    ∀ (x y : List Char), charListLt x y = true → charListLt y x = false := by
  intro x
  induction x with
  | nil =>
    intro y h
    cases y with
    | nil => simp [charListLt] at h
    | cons b bs => simp [charListLt]
  | cons a as ih =>
    intro y h
    cases y with
    | nil => simp [charListLt_nil_right] at h
    | cons b bs =>
      rw [charListLt_cons_iff] at h
      have : ¬ charListLt (b :: bs) (a :: as) = true := by
        rw [charListLt_cons_iff]
        push_neg
        rcases h with h | ⟨he, h⟩
        · exact ⟨le_of_lt h, fun e => absurd (e ▸ h) (lt_irrefl a)⟩
        · exact ⟨le_of_eq he, fun _ => by simp [ih bs h]⟩
      simpa using this

/-- `charListLt` is transitive. -/
theorem charListLt_trans :
    ∀ (x y z : List Char), charListLt x y = true → charListLt y z = true →
      charListLt x z = true := by
  intro x
  induction x with
  | nil =>
    intro y z h1 h2
    cases z with
    | nil => rw [charListLt_nil_right] at h2; simp at h2
    | cons c cs => simp [charListLt]
  | cons a as ih =>
    intro y z h1 h2
    cases y with
    | nil => rw [charListLt_nil_right] at h1; simp at h1
    | cons b bs =>
      cases z with
      | nil => rw [charListLt_nil_right] at h2; simp at h2
      | cons c cs =>
        rw [charListLt_cons_iff] at h1 h2 ⊢
        rcases h1 with h1 | ⟨e1, h1⟩ <;> rcases h2 with h2 | ⟨e2, h2⟩
        · exact Or.inl (lt_trans h1 h2)
        · exact Or.inl (e2 ▸ h1)
        · exact Or.inl (e1 ▸ h2)
        · exact Or.inr ⟨e1.trans e2, ih bs cs h1 h2⟩

/-- Lists neither of which is below the other are equal. -/
theorem charListLt_eq_of_false :
    ∀ (x y : List Char), charListLt x y = false → charListLt y x = false →
      x = y := by
  intro x
  induction x with
  | nil =>
    intro y h1 _
    cases y with
    | nil => rfl
    | cons b bs => simp [charListLt] at h1
  | cons a as ih =>
    intro y h1 h2
    cases y with
    | nil => simp [charListLt] at h2
    | cons b bs =>
      have n1 : ¬ (a < b ∨ (a = b ∧ charListLt as bs = true)) := by
        rw [← charListLt_cons_iff]; simp [h1]
      have n2 : ¬ (b < a ∨ (b = a ∧ charListLt bs as = true)) := by
        rw [← charListLt_cons_iff]; simp [h2]
      push_neg at n1 n2
      have hab : a = b := le_antisymm n2.1 n1.1
      subst hab
      have e1 : charListLt as bs = false := by simpa using n1.2 rfl
      have e2 : charListLt bs as = false := by simpa using n2.2 rfl
      rw [ih bs e1 e2]

/-! ## Order facts about the menu comparator -/

/-- Characterization of the `less` closure as a strict lexicographic
comparison of the sort keys. -/
theorem menuLess_eq_true_iff (a b : Data) :
    menuLess a b = true ↔
      (rank a.price.name < rank b.price.name ∨
        (rank a.price.name = rank b.price.name ∧
          charListLt (lowerName a).data (lowerName b).data = true)) := by
  unfold menuLess goStringLt
  by_cases h : rank a.price.name = rank b.price.name
  · simp [h]
  · simp [h]

/-- The `less` closure is asymmetric. -/
theorem menuLess_asymm (a b : Data) (h : menuLess a b = true) :
    menuLess b a = false := by
  rw [menuLess_eq_true_iff] at h
  by_contra hba
  rw [Bool.not_eq_false, menuLess_eq_true_iff] at hba
  rcases h with h | ⟨he, hc⟩ <;> rcases hba with h2 | ⟨he2, hc2⟩
  · omega
  · omega
  · omega
  · simp [charListLt_asymm _ _ hc] at hc2

/-- The `less` closure is transitive. -/
theorem menuLess_trans (a b c : Data) (h1 : menuLess a b = true)
    (h2 : menuLess b c = true) : menuLess a c = true := by
  rw [menuLess_eq_true_iff] at h1 h2 ⊢
  rcases h1 with h1 | ⟨e1, hc1⟩ <;> rcases h2 with h2 | ⟨e2, hc2⟩
  · exact Or.inl (lt_trans h1 h2)
  · exact Or.inl (by omega)
  · exact Or.inl (by omega)
  · exact Or.inr ⟨e1.trans e2, charListLt_trans _ _ _ hc1 hc2⟩

/-- Items neither of which is `less` than the other share the same sort
key. -/
theorem itemKey_eq_of_not_less (a b : Data) (h1 : menuLess a b = false)
    (h2 : menuLess b a = false) : itemKey a = itemKey b := by
  have hr : rank a.price.name = rank b.price.name := by
    by_contra hne
    rcases Nat.lt_or_ge (rank a.price.name) (rank b.price.name) with hlt | hge
    · have : menuLess a b = true := (menuLess_eq_true_iff a b).mpr (Or.inl hlt)
      simp [h1] at this
    · have hlt : rank b.price.name < rank a.price.name := by omega
      have : menuLess b a = true := (menuLess_eq_true_iff b a).mpr (Or.inl hlt)
      simp [h2] at this
  have hc1 : charListLt (lowerName a).data (lowerName b).data = false := by
    by_contra hx
    rw [Bool.not_eq_false] at hx
    have : menuLess a b = true :=
      (menuLess_eq_true_iff a b).mpr (Or.inr ⟨hr, hx⟩)
    simp [h1] at this
  have hc2 : charListLt (lowerName b).data (lowerName a).data = false := by
    by_contra hx
    rw [Bool.not_eq_false] at hx
    have : menuLess b a = true :=
      (menuLess_eq_true_iff b a).mpr (Or.inr ⟨hr.symm, hx⟩)
    simp [h2] at this
  have hname : lowerName a = lowerName b :=
    stringDataEq (charListLt_eq_of_false _ _ hc1 hc2)
  simp [itemKey, hr, hname]

/-! ## Stable sort facts -/

/-- Insertion produces a permutation of the cons. -/
theorem insertStable_perm {α : Type} (lt : α → α → Bool) (a : α) :
    ∀ l : List α, (insertStable lt a l).Perm (a :: l) := by
  intro l
  induction l with
  | nil => simp [insertStable]
  | cons b bs ih =>
    by_cases h : lt a b = true
    · simp [insertStable, h]
    · have h' : lt a b = false := by simpa using h
      simp only [insertStable, h', Bool.false_eq_true, if_false]
      exact (ih.cons b).trans (List.Perm.swap a b bs)

/-- Membership after insertion. -/
theorem mem_insertStable {α : Type} (lt : α → α → Bool) (a x : α)
    (l : List α) : x ∈ insertStable lt a l ↔ x = a ∨ x ∈ l := by
  rw [(insertStable_perm lt a l).mem_iff]
  simp

/-- The fold underlying `stableSort` permutes the accumulator and the
input. -/
theorem foldl_insertStable_perm {α : Type} (lt : α → α → Bool) :
    ∀ (l acc : List α),
      (l.foldl (fun acc x => insertStable lt x acc) acc).Perm (acc ++ l) := by
  intro l
  induction l with
  | nil => intro acc; simp
  | cons a t ih =>
    intro acc
    have h1 := ih (insertStable lt a acc)
    have h2 : (insertStable lt a acc ++ t).Perm (acc ++ a :: t) := by
      have hp : (insertStable lt a acc).Perm (a :: acc) :=
        insertStable_perm lt a acc
      exact (hp.append_right t).trans List.perm_middle.symm
    simpa using h1.trans h2

/-- `stableSort` permutes its input. -/
theorem stableSort_perm {α : Type} (lt : α → α → Bool) (l : List α) :
    (stableSort lt l).Perm l := by
  simpa [stableSort] using foldl_insertStable_perm lt l []

/-- `sortMenuData` permutes its input. -/
theorem sortMenuData_perm (l : List Data) : (sortMenuData l).Perm l :=
  stableSort_perm menuLess l

/-- Insertion preserves sortedness (for an asymmetric, transitive strict
comparator). -/
theorem pairwise_insertStable {α : Type} (lt : α → α → Bool)
    (hasymm : ∀ x y, lt x y = true → lt y x = false)
    (htrans : ∀ x y z, lt x y = true → lt y z = true → lt x z = true)
    (a : α) :
    ∀ l : List α, l.Pairwise (fun x y => lt y x = false) →
      (insertStable lt a l).Pairwise (fun x y => lt y x = false) := by
  intro l
  induction l with
  | nil => intro _; simp [insertStable]
  | cons b bs ih =>
    intro hl
    rcases List.pairwise_cons.mp hl with ⟨hb, hbs⟩
    by_cases h : lt a b = true
    · simp only [insertStable, h, if_true]
      refine List.pairwise_cons.mpr ⟨?_, hl⟩
      intro y hy
      rcases List.mem_cons.mp hy with rfl | hmem
      · exact hasymm a y h
      · by_contra hya
        rw [Bool.not_eq_false] at hya
        have : lt y b = true := htrans y a b hya h
        simp [hb y hmem] at this
    · have h' : lt a b = false := by simpa using h
      simp only [insertStable, h', Bool.false_eq_true, if_false]
      refine List.pairwise_cons.mpr ⟨?_, ih hbs⟩
      intro y hy
      rcases (mem_insertStable lt a y bs).mp hy with rfl | hmem
      · exact h'
      · exact hb y hmem

/-- The fold underlying `stableSort` preserves sortedness of the
accumulator. -/
theorem pairwise_foldl_insertStable {α : Type} (lt : α → α → Bool)
    (hasymm : ∀ x y, lt x y = true → lt y x = false)
    (htrans : ∀ x y z, lt x y = true → lt y z = true → lt x z = true) :
    ∀ (l acc : List α), acc.Pairwise (fun x y => lt y x = false) →
      (l.foldl (fun acc x => insertStable lt x acc) acc).Pairwise
        (fun x y => lt y x = false) := by
  intro l
  induction l with
  | nil => intro acc h; simpa using h
  | cons a t ih =>
    intro acc h
    exact ih (insertStable lt a acc) (pairwise_insertStable lt hasymm htrans a acc h)

/-- `stableSort` sorts (for an asymmetric, transitive strict comparator). -/
theorem pairwise_stableSort {α : Type} (lt : α → α → Bool)
    (hasymm : ∀ x y, lt x y = true → lt y x = false)
    (htrans : ∀ x y z, lt x y = true → lt y z = true → lt x z = true)
    (l : List α) :
    (stableSort lt l).Pairwise (fun x y => lt y x = false) :=
  pairwise_foldl_insertStable lt hasymm htrans l [] (by simp)

/-- `sortMenuData` sorts by the item key. -/
theorem pairwise_sortMenuData (l : List Data) :
    (sortMenuData l).Pairwise (fun x y => menuLess y x = false) :=
  pairwise_stableSort menuLess menuLess_asymm menuLess_trans l

/-- Among lists with pairwise-distinct sort keys, being simultaneously a
permutation of one another and sorted forces equality. -/
theorem stableSorted_unique {α β : Type} (lt : α → α → Bool) (key : α → β)
    (hconn : ∀ x y, lt x y = false → lt y x = false → key x = key y) :
    ∀ {l₁ l₂ : List α}, l₁.Perm l₂ →
      l₁.Pairwise (fun x y => key x ≠ key y) →
      l₁.Pairwise (fun x y => lt y x = false) →
      l₂.Pairwise (fun x y => lt y x = false) → l₁ = l₂ := by
  intro l₁
  induction l₁ with
  | nil =>
    intro l₂ hp _ _ _
    exact (hp.symm.eq_nil).symm
  | cons a t ih =>
    intro l₂ hp hkey hs₁ hs₂
    cases l₂ with
    | nil => exact absurd hp.eq_nil (by simp)
    | cons b t₂ =>
      rcases List.pairwise_cons.mp hkey with ⟨hka, hkt⟩
      rcases List.pairwise_cons.mp hs₁ with ⟨ha1, hs₁t⟩
      rcases List.pairwise_cons.mp hs₂ with ⟨hb2, hs₂t⟩
      have hab : a = b := by
        by_contra hne
        have hamem : a ∈ b :: t₂ := hp.mem_iff.mp (List.mem_cons_self a t)
        have hbmem : b ∈ a :: t := hp.symm.mem_iff.mp (List.mem_cons_self b t₂)
        have ha2 : a ∈ t₂ := by
          rcases List.mem_cons.mp hamem with h | h
          · exact absurd h hne
          · exact h
        have hb1 : b ∈ t := by
          rcases List.mem_cons.mp hbmem with h | h
          · exact absurd h.symm hne
          · exact h
        exact hka b hb1 (hconn a b (hb2 a ha2) (ha1 b hb1))
      subst hab
      rw [ih hp.cons_inv hkt hs₁t hs₂t]

/-! ## Facts about event processing -/

/-- A wheel-down event adds the fixed step 2 to the stored offset,
unconditionally. -/
theorem update_wheelDown_offset (m : Model) (a : MouseAction)
    (f : Nat → Bool) (now : Int) :
    (Update m (.mouse .wheelDown a f) now).scrollOffset =
      m.scrollOffset + 2 := by
  simp [Update]

/-- A wheel-up event subtracts the step 2 only when the stored offset is at
least 2. -/
theorem update_wheelUp_offset (m : Model) (a : MouseAction)
    (f : Nat → Bool) (now : Int) :
    (Update m (.mouse .wheelUp a f) now).scrollOffset =
      if 2 ≤ m.scrollOffset then m.scrollOffset - 2 else m.scrollOffset := by
  by_cases h : 2 ≤ m.scrollOffset <;> simp [Update, h]

/-- A left-button release reduces to the click-zone loop. -/
theorem update_leftRelease (m : Model) (inB : Nat → Bool) (now : Int) :
    Update m (.mouse .left .release inB) now =
      applyZones inB (List.range 5) m := by
  simp [Update]

/-- The click-zone loop either resets the offset to 0 or leaves it
unchanged. -/
theorem applyZones_offset (inB : Nat → Bool) :
    ∀ (idxs : List Nat) (m : Model),
      (applyZones inB idxs m).scrollOffset = 0 ∨
        (applyZones inB idxs m).scrollOffset = m.scrollOffset := by
  intro idxs
  induction idxs with
  | nil => intro m; exact Or.inr rfl
  | cons i t ih =>
    intro m
    have hstep : applyZones inB (i :: t) m =
        applyZones inB t (zoneStep inB m i) := rfl
    rw [hstep]
    rcases ih (zoneStep inB m i) with h | h
    · exact Or.inl h
    · rw [h]
      unfold zoneStep
      split
      · exact Or.inl rfl
      · exact Or.inr rfl

/-- The click-zone loop keeps an already-zero offset at zero. -/
theorem applyZones_offset_zero (inB : Nat → Bool) :
    ∀ (idxs : List Nat) (m : Model), m.scrollOffset = 0 →
      (applyZones inB idxs m).scrollOffset = 0 := by
  intro idxs
  induction idxs with
  | nil => intro m h; exact h
  | cons i t ih =>
    intro m h
    have hstep : applyZones inB (i :: t) m =
        applyZones inB t (zoneStep inB m i) := rfl
    rw [hstep]
    apply ih
    unfold zoneStep
    split
    · rfl
    · exact h

/-- If the click hits some zone of a campus other than the current one, the
loop resets the offset to 0. -/
theorem applyZones_offset_hit (inB : Nat → Bool) :
    ∀ (idxs : List Nat) (m : Model),
      (∃ i ∈ idxs, inB i = true ∧ (i : Int) ≠ m.currentView) →
      (applyZones inB idxs m).scrollOffset = 0 := by
  intro idxs
  induction idxs with
  | nil =>
    rintro m ⟨i, hi, -, -⟩
    exact absurd hi (List.not_mem_nil i)
  | cons j t ih =>
    rintro m ⟨i, hi, hb, hv⟩
    have hstep : applyZones inB (j :: t) m =
        applyZones inB t (zoneStep inB m j) := rfl
    rw [hstep]
    by_cases hc : m.currentView ≠ (j : Int) ∧ inB j = true
    · have hz : (zoneStep inB m j).scrollOffset = 0 := by
        unfold zoneStep
        rw [if_pos hc]
      exact applyZones_offset_zero inB t _ hz
    · have hz : zoneStep inB m j = m := by
        unfold zoneStep
        rw [if_neg hc]
      rw [hz]
      apply ih m
      rcases List.mem_cons.mp hi with rfl | hmem
      · exact absurd ⟨fun e => hv e.symm, hb⟩ hc
      · exact ⟨i, hmem, hb, hv⟩

/-- Every event leaves the stored offset unchanged, adds 2, subtracts 2 from
an offset that was at least 2, or resets it to 0. -/
theorem update_scrollOffset_cases (m : Model) (msg : Msg) (now : Int) :
    (Update m msg now).scrollOffset = m.scrollOffset ∨
      (Update m msg now).scrollOffset = m.scrollOffset + 2 ∨
      ((Update m msg now).scrollOffset = m.scrollOffset - 2 ∧
        2 ≤ m.scrollOffset) ∨
      (Update m msg now).scrollOffset = 0 := by
  match msg with
  | .windowSize w h => exact Or.inl (by simp [Update])
  | .unicafeData d => exact Or.inl (by simp [Update])
  | .key k =>
    cases k with
    | quit => exact Or.inl rfl
    | up => exact Or.inr (Or.inr (Or.inr (by simp [Update])))
    | down => exact Or.inr (Or.inr (Or.inr (by simp [Update])))
    | right => exact Or.inr (Or.inr (Or.inr (by simp [Update])))
    | left => exact Or.inr (Or.inr (Or.inr (by simp [Update])))
    | today => exact Or.inr (Or.inr (Or.inr (by simp [Update])))
    | other => exact Or.inl rfl
  | .mouse b a f =>
    cases b with
    | wheelDown =>
      exact Or.inr (Or.inl (update_wheelDown_offset m a f now))
    | wheelUp =>
      by_cases h : 2 ≤ m.scrollOffset
      · refine Or.inr (Or.inr (Or.inl ⟨?_, h⟩))
        rw [update_wheelUp_offset, if_pos h]
      · refine Or.inl ?_
        rw [update_wheelUp_offset, if_neg h]
    | left =>
      cases a with
      | release =>
        rw [update_leftRelease]
        rcases applyZones_offset f (List.range 5) m with h | h
        · exact Or.inr (Or.inr (Or.inr h))
        · exact Or.inl h
      | press => exact Or.inl (by simp [Update])
      | motion => exact Or.inl (by simp [Update])
    | other => exact Or.inl (by simp [Update])

/-- Invariant of the session state machine: the stored scroll offset is a
non-negative even integer in every reachable state. -/
theorem reachable_scroll (m : Model) (hr : Reachable m) :
    0 ≤ m.scrollOffset ∧ 2 ∣ m.scrollOffset := by
  induction hr with
  | init => simp [initModel]
  | step msg now hm ih =>
    rcases ih with ⟨h0, hd⟩
    rcases update_scrollOffset_cases _ msg now with h | h | ⟨h, hge⟩ | h
    · rw [h]; exact ⟨h0, hd⟩
    · rw [h]; exact ⟨by omega, by omega⟩
    · rw [h]; exact ⟨by omega, by omega⟩
    · rw [h]; exact ⟨by omega, by omega⟩

/-- The stored offset after `n` wheel-down events. -/
theorem scrollDownN_offset (m : Model) :
    ∀ n : Nat, (scrollDownN n m).scrollOffset = m.scrollOffset + 2 * n := by
  intro n
  induction n with
  | zero => simp [scrollDownN]
  | succ k ih =>
    have hstep : scrollDownN (k + 1) m =
        Update (scrollDownN k m) wheelDownMsg 0 := rfl
    rw [hstep, wheelDownMsg, update_wheelDown_offset, ih]
    push_cast
    ring

/-! ## Auxiliary clamp facts -/

/-- The clamp always lands in `[0, maxOffset]`, for all inputs. -/
theorem clampOffset_bounds (off t v : Int) :
    0 ≤ clampOffset off t v ∧ clampOffset off t v ≤ maxOffsetOf t v := by
  have hmo0 : 0 ≤ maxOffsetOf t v := le_max_right _ _
  simp only [clampOffset]
  by_cases h1 : off > maxOffsetOf t v
  · rw [if_pos h1, if_neg (not_lt.mpr hmo0)]
    exact ⟨hmo0, le_refl _⟩
  · rw [if_neg h1]
    by_cases h2 : off < 0
    · rw [if_pos h2]
      exact ⟨le_refl 0, hmo0⟩
    · rw [if_neg h2]
      exact ⟨not_lt.mp h2, not_lt.mp h1⟩

/-- The clamp returns exactly `maxOffset` once the offset is at least
`maxOffset`. -/
theorem clampOffset_eq_max (off t v : Int) (h : maxOffsetOf t v ≤ off) :
    clampOffset off t v = maxOffsetOf t v := by
  have hmo0 : 0 ≤ maxOffsetOf t v := le_max_right _ _
  simp only [clampOffset]
  by_cases h1 : off > maxOffsetOf t v
  · rw [if_pos h1, if_neg (not_lt.mpr hmo0)]
  · have he : off = maxOffsetOf t v := le_antisymm (not_lt.mp h1) h
    rw [if_neg h1, if_neg (not_lt.mpr (he ▸ hmo0))]
    exact he

/-- `maxOffset` is never negative. -/
theorem maxOffsetOf_nonneg (t v : Int) : 0 ≤ maxOffsetOf t v :=
  le_max_right _ _

/-! ## Claims -/

/-- Claim C1, counterexample: at viewport 20×5 with `loading = true`, `View`
returns the loading screen, not the too-small guard — the guard is NOT
independent of the loading flag, because `View` tests `m.loading` first. -/
theorem claim_C1_counterexample :
    let m : Model := ⟨"xterm", "TrueColor", 20, 5, "dark", 1, [], 0, true, 0⟩
    View (fun _ => "Friday 03.10.2025") (fun _ => "03.10.") m =
        renderLoading m ∧
      View (fun _ => "Friday 03.10.2025") (fun _ => "03.10.") m ≠
        renderTermTooSmall m := by
  exact ⟨rfl, by decide⟩

/-- Claim C1, amended: when `loading` is false and the viewport is below the
fixed minimum (width < 40 or height < 10), rendering returns exactly the
centered guard message "Terminal too small", regardless of the data, the
scroll offset, the campus, the date and the date formatters — the too-small
display state is derived from the viewport and the loading flag alone. -/
theorem claim_C1_thm (fmtFull fmtShort : Int → String) (m : Model)
    (hl : m.loading = false) (hs : m.width < 40 ∨ m.height < 10) :
    View fmtFull fmtShort m = renderTermTooSmall m ∧
      View fmtFull fmtShort m = "Terminal too small" := by
  have h1 : View fmtFull fmtShort m = renderTermTooSmall m := by
    unfold View
    rw [hl]
    simp only [Bool.false_eq_true, if_false]
    rw [if_pos hs]
  exact ⟨h1, h1.trans rfl⟩

/-- Claim C1, witness of the amended theorem at a concrete state. -/
theorem claim_C1_witness :
    View (fun _ => "Friday 03.10.2025") (fun _ => "03.10.")
        ⟨"xterm", "TrueColor", 20, 5, "dark", 1, [], 0, false, 0⟩ =
      "Terminal too small" :=
  (claim_C1_thm _ _ _ rfl (Or.inl (by decide))).2

/-- Claim C2, counterexample: the STORED `scrollOffset` field is not bounded
by the render's maximum offset.  From a fresh 100×50 session, after the fetch
delivers an empty dataset and one wheel-down event, the stored offset is 2
while the most recent render has 4 content lines and visible height 45, so
`maxOffset = 0`.  The clamp in `renderRestaurant` runs on a by-value copy of
the model and is never written back. -/
theorem claim_C2_counterexample :
    let m2 := Update (Update (initModel "xterm" "TrueColor" "dark" 100 50 0 [])
      (.unicafeData []) 0) wheelDownMsg 0
    Reachable m2 ∧
      m2.scrollOffset = 2 ∧
      maxOffsetOf
        ((contentLinesOf
          (restaurantContentAndFound (fun _ => "Friday 03.10.2025")
            (fun _ => "03.10.") m2 m2.currentView).1).length : Int)
        (visibleHeightOf m2.height) = 0 ∧
      ¬ (m2.scrollOffset ≤ maxOffsetOf
        ((contentLinesOf
          (restaurantContentAndFound (fun _ => "Friday 03.10.2025")
            (fun _ => "03.10.") m2 m2.currentView).1).length : Int)
        (visibleHeightOf m2.height)) := by
  refine ⟨?_, by decide, by decide, by decide⟩
  exact Reachable.step wheelDownMsg 0
    (Reachable.step (.unicafeData []) 0
      (Reachable.init "xterm" "TrueColor" "dark" 100 50 0 []))

/-- Claim C2, amended: the stored `scrollOffset` may exceed the render-time
maximum (wheel-down increments it unconditionally); what stays within
`[0, maxOffset]` is the effective offset `clampOffset` computed at every
render from the current line count and viewport height. -/
theorem claim_C2_thm (m : Model) :
    (∀ (a : MouseAction) (f : Nat → Bool) (now : Int),
      (Update m (.mouse .wheelDown a f) now).scrollOffset =
        m.scrollOffset + 2) ∧
    (∀ totalLines vh : Int,
      0 ≤ clampOffset m.scrollOffset totalLines vh ∧
        clampOffset m.scrollOffset totalLines vh ≤
          maxOffsetOf totalLines vh) :=
  ⟨fun a f now => update_wheelDown_offset m a f now,
   fun t v => clampOffset_bounds m.scrollOffset t v⟩

/-- Claim C3: for any offset and any non-negative line count and viewport
height, the render-time clamp lands in `[0, max(totalLines-viewportHeight,0)]`,
and from a zero offset, repeated wheel-down events make the effective
(clamped) offset reach exactly `maxOffset` and stay there, never exceeding
it. -/
theorem claim_C3_thm (off totalLines vh : Int)
    (h1 : 0 ≤ totalLines) (h2 : 0 ≤ vh) :
    (0 ≤ clampOffset off totalLines vh ∧
      clampOffset off totalLines vh ≤ maxOffsetOf totalLines vh) ∧
    (∀ m : Model, m.scrollOffset = 0 →
      (∀ n : Nat,
        clampOffset (scrollDownN n m).scrollOffset totalLines vh ≤
          maxOffsetOf totalLines vh) ∧
      (∃ N : Nat, ∀ n : Nat, N ≤ n →
        clampOffset (scrollDownN n m).scrollOffset totalLines vh =
          maxOffsetOf totalLines vh)) := by
  refine ⟨clampOffset_bounds off totalLines vh, ?_⟩
  intro m h0
  constructor
  · intro n
    exact (clampOffset_bounds _ _ _).2
  · refine ⟨(maxOffsetOf totalLines vh).toNat, fun n hn => ?_⟩
    apply clampOffset_eq_max
    rw [scrollDownN_offset, h0]
    have hle : maxOffsetOf totalLines vh ≤ (n : Int) := Int.toNat_le.mp hn
    omega

/-- Claim C3, witness at concrete inputs. -/
theorem claim_C3_witness :
    0 ≤ clampOffset 7 10 3 ∧ clampOffset 7 10 3 ≤ maxOffsetOf 10 3 :=
  (claim_C3_thm 7 10 3 (by decide) (by decide)).1

/-- Claim C4, counterexample: the rendered order is NOT independent of the
input order for arbitrary item lists.  Two distinct "Lounas" items whose
names "Kana" and "kana" coincide after lowercasing share the same sort key,
so the stable sort preserves their input order and the two input
permutations render in different orders. -/
theorem claim_C4_counterexample :
    let a : Data := ⟨"Kana", "", "", ⟨"Lounas"⟩⟩
    let b : Data := ⟨"kana", "", "", ⟨"Lounas"⟩⟩
    List.Perm [a, b] [b, a] ∧
      (sortMenuData [a, b]).map itemLine ≠
        (sortMenuData [b, a]).map itemLine := by
  exact ⟨by decide, by decide⟩

/-- Claim C4, amended: the items of a section are stably sorted by
`(categoryRank, lowercased-trimmed name)` — for categories meal, vegan meal,
side, dessert and an unclassified label the output order is exactly meal,
vegan meal, side, dessert, unclassified with alphabetical tie-break within
equal rank; the output is always a permutation of the input, sorted by the
key; and the output order is independent of the input order provided no two
items share the same sort key (among equal-key items the stable sort
preserves input order instead). -/
theorem claim_C4_thm :
    ((sortMenuData
      [⟨"Kiisseli", "", "", ⟨"Jälkiruoka"⟩⟩,
       ⟨"Beans", "", "", ⟨"Lisäke"⟩⟩,
       ⟨"Keitto", "", "", ⟨"Lounas"⟩⟩,
       ⟨"Apples", "", "", ⟨"Lisäke"⟩⟩,
       ⟨"Mystery", "", "", ⟨"Erikoinen"⟩⟩,
       ⟨"Pata", "", "", ⟨"Vegaanilounas"⟩⟩]).map Data.name =
      ["Keitto", "Pata", "Apples", "Beans", "Kiisseli", "Mystery"]) ∧
    (∀ l : List Data, (sortMenuData l).Perm l) ∧
    (∀ l : List Data,
      (sortMenuData l).Pairwise (fun x y => menuLess y x = false)) ∧
    (∀ l₁ l₂ : List Data, l₁.Perm l₂ →
      l₁.Pairwise (fun x y => itemKey x ≠ itemKey y) →
      sortMenuData l₁ = sortMenuData l₂) := by
  refine ⟨by decide, sortMenuData_perm, pairwise_sortMenuData, ?_⟩
  intro l₁ l₂ hp hkey
  apply stableSorted_unique menuLess itemKey itemKey_eq_of_not_less
  · exact (sortMenuData_perm l₁).trans (hp.trans (sortMenuData_perm l₂).symm)
  · have hsym : Symmetric (fun x y : Data => itemKey x ≠ itemKey y) := by
      intro x y h e
      exact h e.symm
    exact hkey.perm (sortMenuData_perm l₁).symm (fun h => hsym h)
  · exact pairwise_sortMenuData l₁
  · exact pairwise_sortMenuData l₂

/-- Claim C4, witness of the permutation-independence part at concrete
distinct-key inputs. -/
theorem claim_C4_witness :
    sortMenuData
        [⟨"Soppa", "", "", ⟨"Lounas"⟩⟩, ⟨"Riisi", "", "", ⟨"Lisäke"⟩⟩] =
      sortMenuData
        [⟨"Riisi", "", "", ⟨"Lisäke"⟩⟩, ⟨"Soppa", "", "", ⟨"Lounas"⟩⟩] :=
  claim_C4_thm.2.2.2 _ _ (by decide) (by decide)

/-- Claim C5: campus navigation wraps around — "previous" at index 0 yields
`totalViews - 1`, "next" at the last index yields 0, all other indices move
by one, and both events keep the index inside `[0, totalViews)`. -/
theorem claim_C5_thm (m : Model) (now : Int)
    (h0 : 0 ≤ m.currentView) (h1 : m.currentView < totalViews) :
    ((Update m (.key .up) now).currentView =
      if m.currentView = 0 then totalViews - 1 else m.currentView - 1) ∧
    ((Update m (.key .down) now).currentView =
      if m.currentView = totalViews - 1 then 0 else m.currentView + 1) ∧
    (0 ≤ (Update m (.key .up) now).currentView ∧
      (Update m (.key .up) now).currentView < totalViews) ∧
    (0 ≤ (Update m (.key .down) now).currentView ∧
      (Update m (.key .down) now).currentView < totalViews) := by
  have hup : (Update m (.key .up) now).currentView =
      if m.currentView - 1 < 0 then totalViews - 1 else m.currentView - 1 :=
    rfl
  have hdown : (Update m (.key .down) now).currentView =
      if m.currentView + 1 ≥ totalViews then 0 else m.currentView + 1 := rfl
  simp only [totalViews] at h1 ⊢
  rw [hup, hdown]
  simp only [totalViews]
  refine ⟨?_, ?_, ?_, ?_⟩ <;> split_ifs <;> omega

/-- Claim C5, witness at the initial state (Kumpula, index 1). -/
theorem claim_C5_witness :
    0 ≤ (Update (initModel "" "" "" 80 24 0 []) (.key .up) 0).currentView ∧
      (Update (initModel "" "" "" 80 24 0 []) (.key .up) 0).currentView <
        totalViews :=
  (claim_C5_thm (initModel "" "" "" 80 24 0 []) 0 (by decide)
    (by decide)).2.2.1

/-- Claim C6: from any state with a positive scroll offset, every campus
navigation key, date navigation key, jump-to-today key, and every accepted
click (a left-button release hitting the zone of a campus other than the
current one) resets the scroll offset to 0. -/
theorem claim_C6_thm (m : Model) (now : Int)
    (hpos : 0 < m.scrollOffset) :
    (Update m (.key .up) now).scrollOffset = 0 ∧
    (Update m (.key .down) now).scrollOffset = 0 ∧
    (Update m (.key .left) now).scrollOffset = 0 ∧
    (Update m (.key .right) now).scrollOffset = 0 ∧
    (Update m (.key .today) now).scrollOffset = 0 ∧
    (∀ inB : Nat → Bool,
      (∃ i : Nat, i < 5 ∧ inB i = true ∧ (i : Int) ≠ m.currentView) →
      (Update m (.mouse .left .release inB) now).scrollOffset = 0) := by
  refine ⟨rfl, rfl, rfl, rfl, rfl, ?_⟩
  rintro inB ⟨i, hi5, hb, hv⟩
  rw [update_leftRelease]
  exact applyZones_offset_hit inB (List.range 5) m
    ⟨i, List.mem_range.mpr hi5, hb, hv⟩

/-- Claim C6, witness at a concrete scrolled state. -/
theorem claim_C6_witness :
    (Update (⟨"", "", 80, 24, "", 1, [], 0, false, 4⟩ : Model)
      (.key .down) 0).scrollOffset = 0 :=
  (claim_C6_thm ⟨"", "", 80, 24, "", 1, [], 0, false, 4⟩ 0
    (by decide)).2.1

/-- Claim C7: in every reachable session state, a wheel-up event yields
`scrollOffset = max(0, scrollOffset - 2)` (in particular never a negative
offset) and a wheel-down event yields `scrollOffset + 2`; the step is the
fixed constant 2. -/
theorem claim_C7_thm (m : Model) (hr : Reachable m) (a : MouseAction)
    (f : Nat → Bool) (now : Int) :
    (Update m (.mouse .wheelUp a f) now).scrollOffset =
        max 0 (m.scrollOffset - 2) ∧
    (Update m (.mouse .wheelDown a f) now).scrollOffset =
        m.scrollOffset + 2 ∧
    0 ≤ (Update m (.mouse .wheelUp a f) now).scrollOffset := by
  rcases reachable_scroll m hr with ⟨h0, hd⟩
  refine ⟨?_, update_wheelDown_offset m a f now, ?_⟩
  · rw [update_wheelUp_offset]
    rcases le_or_lt 2 m.scrollOffset with h | h
    · rw [if_pos h, max_eq_right (by omega)]
    · have hz : m.scrollOffset = 0 := by omega
      rw [if_neg (not_le.mpr h), hz]
      rfl
  · rw [update_wheelUp_offset]
    split_ifs <;> omega

/-- Claim C7, witness at the initial state. -/
theorem claim_C7_witness :
    (Update (initModel "" "" "" 80 24 0 [])
        (.mouse .wheelUp .press (fun _ => false)) 0).scrollOffset =
      max 0 ((initModel "" "" "" 80 24 0 []).scrollOffset - 2) :=
  (claim_C7_thm (initModel "" "" "" 80 24 0 [])
    (Reachable.init "" "" "" 80 24 0 []) .press (fun _ => false) 0).1

/-- Claim C8: a Resize event updates only the viewport width and height;
campus index, data, selected date, loading flag, scroll offset and the
remaining session fields are unchanged — in particular resize performs no
scroll reset. -/
theorem claim_C8_thm (m : Model) (w h now : Int) :
    (Update m (.windowSize w h) now).width = w ∧
    (Update m (.windowSize w h) now).height = h ∧
    (Update m (.windowSize w h) now).currentView = m.currentView ∧
    (Update m (.windowSize w h) now).data = m.data ∧
    (Update m (.windowSize w h) now).selectedDate = m.selectedDate ∧
    (Update m (.windowSize w h) now).loading = m.loading ∧
    (Update m (.windowSize w h) now).scrollOffset = m.scrollOffset ∧
    (Update m (.windowSize w h) now).term = m.term ∧
    (Update m (.windowSize w h) now).profile = m.profile ∧
    (Update m (.windowSize w h) now).bg = m.bg :=
  ⟨rfl, rfl, rfl, rfl, rfl, rfl, rfl, rfl, rfl, rfl⟩

/-- Claim C9: a failed initial fetch delivers an event carrying the empty
dataset instead of the fetched one; processing it turns the loading flag off
and installs the empty dataset; with an empty dataset every (campus, date)
lookup misses (the `found` flag stays false for every campus index, date and
formatter), and the content pane carries the literal
"No data for this date." message after the date header. -/
theorem claim_C9_thm :
    initMsg none = Msg.unicafeData [] ∧
    (∀ (m : Model) (now : Int),
      (Update m (.unicafeData []) now).loading = false ∧
      (Update m (.unicafeData []) now).data = []) ∧
    (∀ (fmtFull fmtShort : Int → String) (m : Model) (idx : Int),
      m.data = [] →
      (restaurantContentAndFound fmtFull fmtShort m idx).2 = false ∧
      (restaurantContentAndFound fmtFull fmtShort m idx).1 =
        (fmtFull m.selectedDate ++ "\n") ++ "\n\nNo data for this date.") := by
  refine ⟨rfl, fun m now => ⟨rfl, rfl⟩, ?_⟩
  intro fmtFull fmtShort m idx hd
  have hbody : restaurantContentAndFound fmtFull fmtShort m idx =
      ((fmtFull m.selectedDate ++ "\n") ++ "\n\nNo data for this date.",
        false) := by
    unfold restaurantContentAndFound restaurantBody
    rw [hd]
    rfl
  rw [hbody]
  exact ⟨rfl, rfl⟩

/-- Claim C9, witness at a concrete empty-data state. -/
theorem claim_C9_witness :
    (restaurantContentAndFound (fun _ => "Friday 03.10.2025")
        (fun _ => "03.10.")
        (⟨"", "", 80, 24, "", 1, [], 0, false, 0⟩ : Model) 1).2 = false :=
  (claim_C9_thm.2.2 (fun _ => "Friday 03.10.2025") (fun _ => "03.10.")
    ⟨"", "", 80, 24, "", 1, [], 0, false, 0⟩ 1 rfl).1

/-- Claim C10: in every reachable session state the stored scroll offset is
an even, non-negative integer; every event leaves it unchanged, adds 2,
subtracts 2 from an offset that was at least 2, or resets it to 0; and a
wheel-up event at offset 0 leaves the offset at 0. -/
theorem claim_C10_thm (m : Model) (hr : Reachable m) :
    (0 ≤ m.scrollOffset ∧ 2 ∣ m.scrollOffset) ∧
    (∀ (msg : Msg) (now : Int),
      (Update m msg now).scrollOffset = m.scrollOffset ∨
        (Update m msg now).scrollOffset = m.scrollOffset + 2 ∨
        ((Update m msg now).scrollOffset = m.scrollOffset - 2 ∧
          2 ≤ m.scrollOffset) ∨
        (Update m msg now).scrollOffset = 0) ∧
    (m.scrollOffset = 0 →
      ∀ (a : MouseAction) (f : Nat → Bool) (now : Int),
        (Update m (.mouse .wheelUp a f) now).scrollOffset = 0) := by
  refine ⟨reachable_scroll m hr,
    fun msg now => update_scrollOffset_cases m msg now, ?_⟩
  intro h0 a f now
  rw [update_wheelUp_offset, h0]
  rw [if_neg (by omega)]

/-- Claim C10, witness at the initial state. -/
theorem claim_C10_witness :
    0 ≤ (initModel "" "" "" 80 24 0 []).scrollOffset ∧
      2 ∣ (initModel "" "" "" 80 24 0 []).scrollOffset :=
  (claim_C10_thm (initModel "" "" "" 80 24 0 [])
    (Reachable.init "" "" "" 80 24 0 [])).1

end Unari
